import Mathlib

/-!
Verification of the PocketAlpha intelligence engine and SIP projector
(src/app.py) against its natural-language specification.

Shallow embedding conventions:
* Prices are rationals (`ℚ`); the Python floats carry exact decimal
  values in every case the claims exercise.
* A float value that is not finite — a pandas NaN (e.g. the last entry
  of a length-< 50 rolling mean, or the standard deviation of fewer
  than two returns) or the inf of a numpy division by zero — is
  modelled as `none` of an `Option`; a Python comparison `x < NaN` is
  `False`, which the `Option`-consuming definitions reproduce.
* Volatility is modelled by its square (`sampleVar · * 252`) so that the
  development stays inside `ℚ`: the risk thresholds 0.25 and 0.40 are
  compared squared, which is equivalent because `Real.sqrt` is monotone
  and both sides are nonnegative.
* A price record carries a calendar-month index; `monthlyLast` is the
  last close of each run of equal months, which is the value sequence of
  a last-observation-per-month resample of a date-sorted history.
-/

namespace PocketAlpha

/-- One daily record of a price history: its calendar month (as an index
that increases with the date) and its closing price. -/
structure PriceRecord where
  month : Nat
  close : ℚ
deriving DecidableEq, Repr

/-- A price history, ordered by date ascending. -/
abbrev PriceHistory := List PriceRecord

/-- Trend classification of line 58 of src/app.py. -/
inductive Signal where
  | BUY_ZONE
  | HOLD_WAIT
deriving DecidableEq, Repr

/-- Volatility classification of lines 64-69 of src/app.py. -/
inductive RiskTier where
  | LOW
  | MODERATE
  | HIGH
deriving DecidableEq, Repr

/-- The bundle returned by get_live_intelligence (line 81 of src/app.py);
the raw history component is omitted because it is returned unchanged. -/
structure IntelligenceBundle where
  currentPrice : ℚ
  signal : Signal
  riskTier : RiskTier
  consistencyScore : ℤ
  cagr : ℚ
deriving DecidableEq, Repr

/-- The closing-price column of a history. -/
def closesOf (hist : PriceHistory) : List ℚ :=
  hist.map PriceRecord.close

/-- Python int() on a rational: truncation toward zero. -/
def pyInt (q : ℚ) : ℤ :=
  if 0 ≤ q then ⌊q⌋ else -⌊-q⌋

/-- Last entry of the 50-period rolling mean of the closes (line 57):
pandas yields NaN (here none) when fewer than 50 records exist, and the
mean of the last 50 closes otherwise. -/
def ma50 (closes : List ℚ) : Option ℚ :=
  if 50 ≤ closes.length then
    some ((closes.drop (closes.length - 50)).sum / 50)
  else
    none

/-- Line 58: BUY_ZONE iff current_price < ma_50; a comparison against a
NaN rolling mean is False, so a short history falls to HOLD_WAIT. -/
def signalOf (closes : List ℚ) (currentPrice : ℚ) : Signal :=
  match ma50 closes with
  | some m => if currentPrice < m then Signal.BUY_ZONE else Signal.HOLD_WAIT
  | none => Signal.HOLD_WAIT

/-- Line 61: pct_change of the closes, with the leading NaN already
dropped (pandas std skips it). -/
def dailyReturns (closes : List ℚ) : List ℚ :=
  (closes.zip closes.tail).map (fun p => p.2 / p.1 - 1)

/-- Arithmetic mean of a list of rationals. -/
def listMean (l : List ℚ) : ℚ :=
  l.sum / l.length

/-- Sample variance (ddof = 1) as pandas std computes it under the
square root: none when fewer than 2 observations exist (pandas: NaN). -/
def sampleVar (l : List ℚ) : Option ℚ :=
  if 2 ≤ l.length then
    some ((l.map (fun x => (x - listMean l) ^ 2)).sum / (l.length - 1))
  else
    none

/-- Lines 62-69: risk tier from annualized volatility. Modelled on the
squared scale: volatility = std * sqrt 252, so volatility < c iff
sampleVar * 252 < c ^ 2 for c ≥ 0. A NaN volatility (fewer than two
returns) fails both < comparisons and lands on HIGH, as in Python. -/
def riskTierOf (closes : List ℚ) : RiskTier :=
  match sampleVar (dailyReturns closes) with
  | some v =>
    if v * 252 < (25 / 100) ^ 2 then RiskTier.LOW
    else if v * 252 < (40 / 100) ^ 2 then RiskTier.MODERATE
    else RiskTier.HIGH
  | none => RiskTier.HIGH

/-- Line 72's resample to month-end last values: the last close of each
run of records sharing a month index. -/
def monthlyLast : PriceHistory → List ℚ
  | [] => []
  | [r] => [r.close]
  | r :: r' :: rest =>
    if r.month = r'.month then monthlyLast (r' :: rest)
    else r.close :: monthlyLast (r' :: rest)

/-- Line 73: number of strictly positive month-over-month percentage
changes (the leading NaN of pct_change compares False against 0). -/
def positiveMonths (l : List ℚ) : ℕ :=
  ((l.zip l.tail).map (fun p => p.2 / p.1 - 1)).countP (fun x => decide (0 < x))

/-- Line 74: int((positive_months / 12) * 100). -/
def consistencyScoreOf (hist : PriceHistory) : ℤ :=
  pyInt (((positiveMonths (monthlyLast hist) : ℚ) / 12) * 100)

/-- Lines 47-81 of src/app.py, from the point where the fetched history
is in hand: None on an empty history, otherwise the metric bundle. -/
def analyze : PriceHistory → Option IntelligenceBundle
  | [] => none
  | r :: rest =>
    some
      { currentPrice := (closesOf (r :: rest)).getLastD 0
        signal := signalOf (closesOf (r :: rest)) ((closesOf (r :: rest)).getLastD 0)
        riskTier := riskTierOf (closesOf (r :: rest))
        consistencyScore := consistencyScoreOf (r :: rest)
        cagr := (closesOf (r :: rest)).getLastD 0 / (closesOf (r :: rest)).headD 0 - 1 }

/-- Lines 137-143: projected SIP future value from the engine's cagr, a
monthly contribution and a duration in years. -/
def sipFutureValue (cagr monthlyContribution : ℚ) (years : ℕ) : ℚ :=
  let r := cagr / 12
  let n := years * 12
  if 0 < r then monthlyContribution * (((1 + r) ^ n - 1) / r)
  else monthlyContribution * (n : ℚ)

/-- Line 145: units = monthly_budget / price, with no guard and no
error path. The price is a numpy float64, so a zero price yields the
non-finite IEEE value inf (numpy scalar division does not raise),
modelled as none since ℚ has no infinities; any other price, a negative
one included, produces the plain finite quotient. -/
def monthlyUnits (monthlyContribution price : ℚ) : Option ℚ :=
  if price = 0 then none else some (monthlyContribution / price)

/-- Lines 154-169: the discipline score heuristic. The Python test
quoted from line 166 checks the substring Low, which holds exactly for
the LOW tier label. -/
def disciplineScore (years : ℕ) (monthlyBudget : ℚ) (risk : RiskTier) : ℕ :=
  let s0 := 50
  let s1 := if 5 ≤ years then s0 + 20 else if 3 ≤ years then s0 + 10 else s0
  let s2 :=
    if (1000 : ℚ) ≤ monthlyBudget then s1 + 15
    else if (500 : ℚ) ≤ monthlyBudget then s1 + 10
    else s1
  let s3 := if risk = RiskTier.LOW then s2 + 15 else s2
  min s3 100

/-- The bundle analyze builds on a nonempty history, named so that
concrete evaluations can be stated without repeating the record. -/
def engineBundle (r : PriceRecord) (rest : PriceHistory) : IntelligenceBundle :=
  { currentPrice := (closesOf (r :: rest)).getLastD 0
    signal := signalOf (closesOf (r :: rest)) ((closesOf (r :: rest)).getLastD 0)
    riskTier := riskTierOf (closesOf (r :: rest))
    consistencyScore := consistencyScoreOf (r :: rest)
    cagr := (closesOf (r :: rest)).getLastD 0 / (closesOf (r :: rest)).headD 0 - 1 }

theorem analyze_nil : analyze [] = none := rfl

theorem analyze_cons (r : PriceRecord) (rest : PriceHistory) :
    analyze (r :: rest) = some (engineBundle r rest) := rfl

theorem signalOf_eq_of_ma50 {closes : List ℚ} {p m : ℚ} (h : ma50 closes = some m) :
    signalOf closes p = if p < m then Signal.BUY_ZONE else Signal.HOLD_WAIT := by
  unfold signalOf
  rw [h]

theorem signalOf_eq_of_ma50_none {closes : List ℚ} {p : ℚ} (h : ma50 closes = none) :
    signalOf closes p = Signal.HOLD_WAIT := by
  unfold signalOf
  rw [h]

theorem ma50_eq_none {closes : List ℚ} (h : closes.length < 50) : ma50 closes = none := by
  unfold ma50
  rw [if_neg (by omega)]

theorem ma50_eq_some {closes : List ℚ} (h : 50 ≤ closes.length) :
    ma50 closes = some ((closes.drop (closes.length - 50)).sum / 50) := by
  unfold ma50
  rw [if_pos h]

theorem length_closesOf (hist : PriceHistory) : (closesOf hist).length = hist.length := by
  simp [closesOf]

/-- C1. For a history with at least 50 records the engine signals
BUY_ZONE exactly when the current price is strictly below the mean of
the last 50 closes, and an equality of the two yields HOLD_WAIT. -/
theorem C1_signal_iff_below_ma50 (hist : PriceHistory) (h50 : 50 ≤ hist.length)
    (b : IntelligenceBundle) (hb : analyze hist = some b) :
    (b.signal = Signal.BUY_ZONE ↔
      b.currentPrice < ((closesOf hist).drop (hist.length - 50)).sum / 50) ∧
    (b.currentPrice = ((closesOf hist).drop (hist.length - 50)).sum / 50 →
      b.signal = Signal.HOLD_WAIT) := by
  match hist, hb with
  | r :: rest, hb =>
    rw [analyze_cons] at hb
    injection hb with hb
    subst hb
    have hlen := length_closesOf (r :: rest)
    have hma : ma50 (closesOf (r :: rest)) =
        some (((closesOf (r :: rest)).drop ((r :: rest).length - 50)).sum / 50) := by
      rw [ma50_eq_some (by omega), hlen]
    have hsig :
        (engineBundle r rest).signal =
          if (closesOf (r :: rest)).getLastD 0 <
              ((closesOf (r :: rest)).drop ((r :: rest).length - 50)).sum / 50 then
            Signal.BUY_ZONE
          else Signal.HOLD_WAIT := signalOf_eq_of_ma50 hma
    have hcp : (engineBundle r rest).currentPrice = (closesOf (r :: rest)).getLastD 0 := rfl
    by_cases hlt :
      (closesOf (r :: rest)).getLastD 0 <
        ((closesOf (r :: rest)).drop ((r :: rest).length - 50)).sum / 50
    · refine ⟨⟨fun _ => by rwa [hcp], fun _ => by rw [hsig, if_pos hlt]⟩, fun heq => ?_⟩
      rw [hcp] at heq
      exact absurd (heq ▸ hlt) (lt_irrefl _)
    · refine ⟨⟨fun hs => ?_, fun hc => absurd (hcp ▸ hc) hlt⟩,
        fun _ => by rw [hsig, if_neg hlt]⟩
      rw [hsig, if_neg hlt] at hs
      exact absurd hs (by simp)

/-- A 50-record history: 49 closes at 2 followed by a close at 1, whose
current price 1 sits below the 50-period mean 99/50. -/
def hist50 : PriceHistory := List.replicate 49 ⟨0, 2⟩ ++ [⟨0, 1⟩]

def bundle50 : IntelligenceBundle :=
  engineBundle ⟨0, 2⟩ (List.replicate 48 ⟨0, 2⟩ ++ [⟨0, 1⟩])

/-- Witness for C1 at the concrete history hist50. -/
theorem C1_witness : bundle50.signal = Signal.BUY_ZONE := by
  have h := C1_signal_iff_below_ma50 hist50 (by simp [hist50]) bundle50 (analyze_cons _ _)
  refine h.1.mpr ?_
  have hcp : bundle50.currentPrice = 1 := by
    simp [bundle50, engineBundle, closesOf, List.getLastD_concat]
  rw [hcp]
  norm_num [hist50, closesOf, nsmul_eq_mul]

/-- C9. With fewer than 50 records the rolling mean of line 57 is NaN
(none here), the strict comparison of line 58 is then False, and the
signal is HOLD_WAIT: BUY_ZONE is unreachable for such histories. -/
theorem C9_short_history_signal_hold (hist : PriceHistory) (h : hist.length < 50)
    (b : IntelligenceBundle) (hb : analyze hist = some b) :
    ma50 (closesOf hist) = none ∧ b.signal = Signal.HOLD_WAIT ∧
      b.signal ≠ Signal.BUY_ZONE := by
  match hist, hb with
  | r :: rest, hb =>
    rw [analyze_cons] at hb
    injection hb with hb
    subst hb
    have hma : ma50 (closesOf (r :: rest)) = none :=
      ma50_eq_none (by rw [length_closesOf]; omega)
    have hs : (engineBundle r rest).signal = Signal.HOLD_WAIT :=
      signalOf_eq_of_ma50_none hma
    exact ⟨hma, hs, by rw [hs]; simp⟩

def hist9 : PriceHistory := [⟨0, 3⟩, ⟨0, 4⟩]

def bundle9 : IntelligenceBundle := engineBundle ⟨0, 3⟩ [⟨0, 4⟩]

/-- Witness for C9 at a two-record history. -/
theorem C9_witness :
    ma50 (closesOf hist9) = none ∧ bundle9.signal = Signal.HOLD_WAIT ∧
      bundle9.signal ≠ Signal.BUY_ZONE :=
  C9_short_history_signal_hold hist9 (by simp [hist9]) bundle9 (analyze_cons _ _)

/-- C2 as refuted: with 2 ≤ records < 50 the code yields a NaN rolling
mean, not the mean of the available records; here the current price 1
lies strictly below the two-record mean 11/2, so the claimed signal rule
would give BUY_ZONE, yet the engine reports HOLD_WAIT. -/
theorem C2_cex :
    ma50 (closesOf [⟨0, 10⟩, ⟨0, 1⟩]) = none ∧
      (analyze [⟨0, 10⟩, ⟨0, 1⟩]).map IntelligenceBundle.signal =
        some Signal.HOLD_WAIT ∧
      (closesOf [⟨0, 10⟩, ⟨0, 1⟩]).getLastD 0 <
        (closesOf [⟨0, 10⟩, ⟨0, 1⟩]).sum / (closesOf [⟨0, 10⟩, ⟨0, 1⟩]).length := by
  have hma : ma50 (closesOf [⟨0, 10⟩, ⟨0, 1⟩]) = none := ma50_eq_none (by simp [closesOf])
  refine ⟨hma, ?_, ?_⟩
  · rw [analyze_cons]
    simp only [Option.map, engineBundle]
    rw [signalOf_eq_of_ma50_none hma]
  · norm_num [closesOf]

/-- C2 amended: a history with at least 2 but fewer than 50 records does
not make the engine fail (a bundle is still produced), but the rolling
mean is undefined rather than the mean of the available records, and the
signal therefore falls to HOLD_WAIT. -/
theorem C2_short_history_no_failure (hist : PriceHistory) (h2 : 2 ≤ hist.length)
    (h50 : hist.length < 50) :
    (analyze hist).isSome = true ∧ ma50 (closesOf hist) = none ∧
      ∀ b, analyze hist = some b → b.signal = Signal.HOLD_WAIT := by
  match hist with
  | r :: rest =>
    have hma : ma50 (closesOf (r :: rest)) = none :=
      ma50_eq_none (by rw [length_closesOf]; omega)
    refine ⟨by rw [analyze_cons]; rfl, hma, fun b hb => ?_⟩
    rw [analyze_cons] at hb
    injection hb with hb
    subst hb
    exact signalOf_eq_of_ma50_none hma

def hist2w : PriceHistory := [⟨0, 7⟩, ⟨0, 8⟩, ⟨0, 9⟩]

def bundle2w : IntelligenceBundle := engineBundle ⟨0, 7⟩ [⟨0, 8⟩, ⟨0, 9⟩]

/-- Witness for the amended C2 at a three-record history. -/
theorem C2_witness :
    (analyze hist2w).isSome = true ∧ ma50 (closesOf hist2w) = none ∧
      bundle2w.signal = Signal.HOLD_WAIT := by
  have h := C2_short_history_no_failure hist2w (by simp [hist2w]) (by simp [hist2w])
  exact ⟨h.1, h.2.1, h.2.2 bundle2w (analyze_cons _ _)⟩

/-- C3 as refuted: a single-record history is not mapped to the NoData
sentinel; the engine computes a full bundle for it (with a degenerate
HIGH risk tier coming from a NaN volatility). -/
theorem C3_cex :
    analyze [⟨0, 5⟩] ≠ none ∧
      analyze [⟨0, 5⟩] =
        some { currentPrice := 5, signal := Signal.HOLD_WAIT,
               riskTier := RiskTier.HIGH, consistencyScore := 0, cagr := 0 } := by
  refine ⟨by rw [analyze_cons]; simp, ?_⟩
  rw [analyze_cons]
  refine congrArg some ?_
  have hma : ma50 (closesOf [⟨0, 5⟩]) = none := ma50_eq_none (by simp [closesOf])
  unfold engineBundle
  rw [signalOf_eq_of_ma50_none hma]
  norm_num [closesOf, riskTierOf, sampleVar, dailyReturns, consistencyScoreOf,
    positiveMonths, monthlyLast, pyInt]

/-- C3 amended: analyze returns the NoData sentinel exactly on the empty
history; every nonempty history, the single-record one included, yields
a bundle. -/
theorem C3_nodata_iff_empty :
    analyze [] = none ∧ ∀ (r : PriceRecord) (rest : PriceHistory),
      (analyze (r :: rest)).isSome = true := by
  exact ⟨analyze_nil, fun r rest => by rw [analyze_cons]; rfl⟩

theorem getLastD_eq_of_all {c : ℚ} :
    ∀ (l : List ℚ) (d : ℚ), l ≠ [] → (∀ x ∈ l, x = c) → l.getLastD d = c
  | [], _, hne, _ => absurd rfl hne
  | [a], _, _, h => by
    rw [List.getLastD_cons, List.getLastD_nil]
    exact h a (by simp)
  | a :: b :: t, d, _, h => by
    rw [List.getLastD_cons]
    exact getLastD_eq_of_all (b :: t) a (by simp)
      (fun x hx => h x (List.mem_cons_of_mem _ hx))

/-- C5. On a flat history (all closes equal to a positive c, at least 2
records) the engine's cagr is 0 and the signal is HOLD_WAIT, because the
current price never falls strictly below the rolling mean. -/
theorem C5_flat_history (c : ℚ) (hc : 0 < c) (hist : PriceHistory)
    (h2 : 2 ≤ hist.length) (hall : ∀ p ∈ hist, PriceRecord.close p = c)
    (b : IntelligenceBundle) (hb : analyze hist = some b) :
    b.cagr = 0 ∧ b.signal = Signal.HOLD_WAIT := by
  match hist, hb with
  | r :: rest, hb =>
    rw [analyze_cons] at hb
    injection hb with hb
    subst hb
    have hallc : ∀ x ∈ closesOf (r :: rest), x = c := by
      intro x hx
      rcases List.mem_map.1 hx with ⟨p, hp, rfl⟩
      exact hall p hp
    have hne : closesOf (r :: rest) ≠ [] := by simp [closesOf]
    have hlast : (closesOf (r :: rest)).getLastD 0 = c :=
      getLastD_eq_of_all (closesOf (r :: rest)) 0 hne hallc
    have hhead : (closesOf (r :: rest)).headD 0 = c := by
      show r.close = c
      exact hall r (by simp)
    constructor
    · show (closesOf (r :: rest)).getLastD 0 / (closesOf (r :: rest)).headD 0 - 1 = 0
      rw [hlast, hhead, div_self (ne_of_gt hc), sub_self]
    · show signalOf (closesOf (r :: rest)) ((closesOf (r :: rest)).getLastD 0) =
        Signal.HOLD_WAIT
      by_cases h50 : 50 ≤ (closesOf (r :: rest)).length
      · have hm :
            ((closesOf (r :: rest)).drop ((closesOf (r :: rest)).length - 50)).sum / 50
              = c := by
          have hdall :
              ∀ x ∈ (closesOf (r :: rest)).drop ((closesOf (r :: rest)).length - 50),
                x = c :=
            fun x hx => hallc x (List.drop_subset _ _ hx)
          rw [List.sum_eq_card_nsmul _ c hdall, List.length_drop,
            Nat.sub_sub_self h50, nsmul_eq_mul]
          norm_num
        rw [signalOf_eq_of_ma50 (ma50_eq_some h50), hlast, hm, if_neg (lt_irrefl c)]
      · rw [signalOf_eq_of_ma50_none (ma50_eq_none (by omega))]

def hist5w : PriceHistory := [⟨0, 5⟩, ⟨0, 5⟩, ⟨0, 5⟩]

def bundle5w : IntelligenceBundle := engineBundle ⟨0, 5⟩ [⟨0, 5⟩, ⟨0, 5⟩]

/-- Witness for C5 at a flat three-record history with close 5. -/
theorem C5_witness : bundle5w.cagr = 0 ∧ bundle5w.signal = Signal.HOLD_WAIT :=
  C5_flat_history 5 (by norm_num) hist5w (by simp [hist5w])
    (by decide) bundle5w (analyze_cons _ _)

theorem positiveMonths_le (l : List ℚ) : positiveMonths l ≤ l.length - 1 := by
  unfold positiveMonths
  calc ((l.zip l.tail).map (fun p => p.2 / p.1 - 1)).countP (fun x => decide (0 < x))
      ≤ ((l.zip l.tail).map (fun p => p.2 / p.1 - 1)).length :=
        List.countP_le_length _
    _ = (l.zip l.tail).length := List.length_map _ _
    _ = min l.length l.tail.length := List.length_zip _ _
    _ ≤ l.length - 1 := by
        simp only [List.length_tail]
        omega

theorem pyInt_nonneg {q : ℚ} (h : 0 ≤ q) : 0 ≤ pyInt q := by
  unfold pyInt
  rw [if_pos h]
  exact Int.floor_nonneg.2 h

theorem pyInt_le_100 {q : ℚ} (h0 : 0 ≤ q) (h : q ≤ 100) : pyInt q ≤ 100 := by
  unfold pyInt
  rw [if_pos h0]
  calc ⌊q⌋ ≤ ⌊(100 : ℚ)⌋ := Int.floor_le_floor h
    _ = 100 := by norm_num

/-- C4. For every bundle the engine produces from a history spanning at
most 13 calendar months (as a trailing one-year fetch does), the
consistency score is an integer in [0, 100], equal to the truncation of
(positive monthly transitions / 12) * 100; with exactly 12 positive
transitions the score is exactly 100. -/
theorem C4_consistency_score_bounds (hist : PriceHistory) (b : IntelligenceBundle)
    (hb : analyze hist = some b) (hspan : (monthlyLast hist).length ≤ 13) :
    0 ≤ b.consistencyScore ∧ b.consistencyScore ≤ 100 ∧
      b.consistencyScore =
        pyInt (((positiveMonths (monthlyLast hist) : ℚ) / 12) * 100) ∧
      (positiveMonths (monthlyLast hist) = 12 → b.consistencyScore = 100) := by
  match hist, hb with
  | r :: rest, hb =>
    rw [analyze_cons] at hb
    injection hb with hb
    subst hb
    have hc : (engineBundle r rest).consistencyScore =
        pyInt (((positiveMonths (monthlyLast (r :: rest)) : ℚ) / 12) * 100) := rfl
    have hple : positiveMonths (monthlyLast (r :: rest)) ≤ 12 := by
      have := positiveMonths_le (monthlyLast (r :: rest))
      omega
    have harg0 :
        (0 : ℚ) ≤ ((positiveMonths (monthlyLast (r :: rest)) : ℚ) / 12) * 100 := by
      positivity
    have harg :
        ((positiveMonths (monthlyLast (r :: rest)) : ℚ) / 12) * 100 ≤ 100 := by
      have hq : (positiveMonths (monthlyLast (r :: rest)) : ℚ) ≤ 12 := by
        exact_mod_cast hple
      rw [div_mul_eq_mul_div, div_le_iff₀ (by norm_num)]
      nlinarith
    refine ⟨hc ▸ pyInt_nonneg harg0, hc ▸ pyInt_le_100 harg0 harg, hc, fun h12 => ?_⟩
    rw [hc, h12]
    norm_num [pyInt]

/-- Thirteen records in thirteen consecutive months with rising closes:
twelve positive monthly transitions and no negative ones. -/
def hist13 : PriceHistory :=
  [⟨0, 1⟩, ⟨1, 2⟩, ⟨2, 3⟩, ⟨3, 4⟩, ⟨4, 5⟩, ⟨5, 6⟩, ⟨6, 7⟩,
   ⟨7, 8⟩, ⟨8, 9⟩, ⟨9, 10⟩, ⟨10, 11⟩, ⟨11, 12⟩, ⟨12, 13⟩]

def bundle13 : IntelligenceBundle :=
  engineBundle ⟨0, 1⟩
    [⟨1, 2⟩, ⟨2, 3⟩, ⟨3, 4⟩, ⟨4, 5⟩, ⟨5, 6⟩, ⟨6, 7⟩,
     ⟨7, 8⟩, ⟨8, 9⟩, ⟨9, 10⟩, ⟨10, 11⟩, ⟨11, 12⟩, ⟨12, 13⟩]

/-- Witness for C4: the rising 13-month history scores exactly 100. -/
theorem C4_witness :
    0 ≤ bundle13.consistencyScore ∧ bundle13.consistencyScore ≤ 100 ∧
      bundle13.consistencyScore = 100 := by
  have h := C4_consistency_score_bounds hist13 bundle13 (analyze_cons _ _)
    (by simp [hist13, monthlyLast])
  have h12 : positiveMonths (monthlyLast hist13) = 12 := by
    norm_num [hist13, monthlyLast, positiveMonths, List.countP_cons]
  exact ⟨h.1, h.2.1, h.2.2.2 h12⟩

/-- C6. The projector computes the ordinary-annuity future value when
the monthly rate r = cagr / 12 is positive, and linear accumulation
monthlyContribution * n when r ≤ 0; in particular any cagr ≤ 0 with a
500 contribution over 1 year projects exactly 6000. -/
theorem C6_sip_future_value :
    (∀ (cagr m : ℚ) (y : ℕ), 0 < cagr / 12 →
        sipFutureValue cagr m y =
          m * (((1 + cagr / 12) ^ (y * 12) - 1) / (cagr / 12))) ∧
    (∀ (cagr m : ℚ) (y : ℕ), cagr / 12 ≤ 0 →
        sipFutureValue cagr m y = m * ((y * 12 : ℕ) : ℚ)) ∧
    (∀ cagr : ℚ, cagr ≤ 0 → sipFutureValue cagr 500 1 = 6000) := by
  refine ⟨fun cagr m y h => ?_, fun cagr m y h => ?_, fun cagr h => ?_⟩
  · simp only [sipFutureValue]
    rw [if_pos h]
  · simp only [sipFutureValue]
    rw [if_neg (not_lt.2 h)]
  · have h12 : cagr / 12 ≤ 0 := div_nonpos_iff.2 (Or.inr ⟨h, by norm_num⟩)
    simp only [sipFutureValue]
    rw [if_neg (not_lt.2 h12)]
    norm_num

/-- Witness for C6: the positive-rate branch at cagr 0.12 over 2 years
and the degenerate branch at cagr 0 over 1 year. -/
theorem C6_witness :
    sipFutureValue (12 / 100) 500 2 =
      500 * (((1 + (12 / 100 : ℚ) / 12) ^ (2 * 12) - 1) / ((12 / 100 : ℚ) / 12)) ∧
    sipFutureValue 0 500 1 = 6000 :=
  ⟨C6_sip_future_value.1 (12 / 100) 500 2 (by norm_num),
   C6_sip_future_value.2.2 0 le_rfl⟩

/-- C7 as refuted: at the non-positive current price -1 the projector
does not fail at all; it returns the plain value -500 instead of the
DivisionError failure the claim asserts. -/
theorem C7_cex : (-1 : ℚ) ≤ 0 ∧ monthlyUnits 500 (-1) = some (-500) := by
  refine ⟨by norm_num, ?_⟩
  unfold monthlyUnits
  rw [if_neg (by norm_num)]
  norm_num

/-- C7 amended: monthlyUnits is the bare unguarded quotient
monthlyContribution / currentPrice whenever the price is nonzero (a
negative price included, yielding a plain value with no failure), and a
zero price yields the non-finite numpy value inf (the none case) — a
plain value too, not a DivisionError and not any defined failure. -/
theorem C7_units (m p : ℚ) :
    (p ≠ 0 → monthlyUnits m p = some (m / p)) ∧ monthlyUnits m 0 = none := by
  constructor
  · intro hp
    unfold monthlyUnits
    rw [if_neg hp]
  · unfold monthlyUnits
    rw [if_pos rfl]

/-- Witness for the amended C7 at price 2 and at price 0. -/
theorem C7_witness : monthlyUnits 500 2 = some 250 ∧ monthlyUnits 500 0 = none := by
  refine ⟨?_, (C7_units 500 0).2⟩
  rw [(C7_units 500 2).1 (by norm_num)]
  norm_num

/-- Transcription of the discipline-score rule list as the spec words
it: base 50, plus the duration bonus, plus the contribution bonus, plus
the low-risk bonus, clamped at 100. -/
def disciplineScoreSpec (years : ℕ) (monthlyContribution : ℚ) (risk : RiskTier) : ℕ :=
  min
    (50 + (if 5 ≤ years then 20 else if 3 ≤ years then 10 else 0)
      + (if (1000 : ℚ) ≤ monthlyContribution then 15
         else if (500 : ℚ) ≤ monthlyContribution then 10 else 0)
      + (if risk = RiskTier.LOW then 15 else 0))
    100

/-- C8. The sequential bonus accumulation of lines 154-169 agrees with
the spec's additive rule list for every input, and the two quoted
instances evaluate to 100 and 50. -/
theorem C8_discipline_score :
    (∀ (years : ℕ) (m : ℚ) (risk : RiskTier),
        disciplineScore years m risk = disciplineScoreSpec years m risk) ∧
    disciplineScore 5 1000 RiskTier.LOW = 100 ∧
    disciplineScore 1 100 RiskTier.HIGH = 50 := by
  refine ⟨fun years m risk => ?_, ?_, ?_⟩
  · simp only [disciplineScore, disciplineScoreSpec]
    split_ifs <;> omega
  · decide
  · decide

/-- C10. For a fixed cagr and a nonnegative contribution the projected
future value never decreases as the duration grows through the
supported range 1 to 10 years. -/
theorem C10_future_value_monotone (cagr m : ℚ) (hm : 0 ≤ m) (y1 y2 : ℕ)
    (hy1 : 1 ≤ y1) (hy12 : y1 ≤ y2) (hy2 : y2 ≤ 10) :
    sipFutureValue cagr m y1 ≤ sipFutureValue cagr m y2 := by
  simp only [sipFutureValue]
  by_cases hr : 0 < cagr / 12
  · rw [if_pos hr, if_pos hr]
    apply mul_le_mul_of_nonneg_left _ hm
    have hpow : (1 + cagr / 12) ^ (y1 * 12) ≤ (1 + cagr / 12) ^ (y2 * 12) :=
      pow_le_pow_right₀ (by linarith) (by omega)
    exact (div_le_div_iff_of_pos_right hr).2 (by linarith)
  · rw [if_neg hr, if_neg hr]
    apply mul_le_mul_of_nonneg_left _ hm
    exact_mod_cast Nat.cast_le.2 (by omega : y1 * 12 ≤ y2 * 12)

/-- Witness for C10 at cagr 0.06, contribution 500, from 1 year to 3. -/
theorem C10_witness : sipFutureValue (6 / 100) 500 1 ≤ sipFutureValue (6 / 100) 500 3 :=
  C10_future_value_monotone (6 / 100) 500 (by norm_num) 1 3 (by norm_num)
    (by norm_num) (by norm_num)

end PocketAlpha
